import Mathlib

/-!
Shallow embedding of the forecast-operator pipeline of this repository
(`ads/operators/forecast/{utils,arima,prophet,automlx}.py` and
`ads/opctl/operator/lowcode/forecast/{utils,const}.py`).

Numbers are modelled as rationals.  IEEE NaN is tracked explicitly with
`Option ℚ`: `none` stands for NaN, and any arithmetic combining a NaN
yields NaN, mirroring numpy's propagation.
-/

namespace Forecast

/-! ### numpy-style primitives -/

/-- One term of the sMAPE mean: `|a - p| / (|a| + |p|)`.
When the denominator is zero (which forces `a = 0` and `p = 0`, so the
numerator is zero as well) numpy produces `0/0 = NaN`, modelled as `none`. -/
def smapePoint (a p : ℚ) : Option ℚ :=
  if |a| + |p| = 0 then none else some (|a - p| / (|a| + |p|))

/-- Addition of possibly-NaN values; NaN propagates. -/
def optAdd : Option ℚ → Option ℚ → Option ℚ
  | some a, some b => some (a + b)
  | _, _ => none

/-- Sum of a list of possibly-NaN values; NaN propagates. -/
def optSum : List (Option ℚ) → Option ℚ
  | [] => some 0
  | x :: xs => optAdd x (optSum xs)

/-- Mean as numpy computes it: NaN on the empty list, otherwise sum divided
by length, with NaN propagating from any element. -/
def npMean (xs : List (Option ℚ)) : Option ℚ :=
  if xs.length = 0 then none
  else (optSum xs).map (fun s => s / (xs.length : ℚ))

/-- Round a rational to the nearest integer, ties to even
(Python's `round` semantics). -/
def roundHalfEven (x : ℚ) : ℤ :=
  if x - ⌊x⌋ < 1/2 then ⌊x⌋
  else if 1/2 < x - ⌊x⌋ then ⌊x⌋ + 1
  else if Even ⌊x⌋ then ⌊x⌋ else ⌊x⌋ + 1

/-- Python's `round(x, 2)`. -/
def pyRound2 (x : ℚ) : ℚ := (roundHalfEven (x * 100) : ℚ) / 100

/-- Python's `int(x)` on a float: truncation toward zero. -/
def pyInt (x : ℚ) : ℤ := if 0 ≤ x then ⌊x⌋ else ⌈x⌉

/-! ### `smape`

`ads/operators/forecast/utils.py` lines 62-69; the identical function also
appears in `ads/opctl/operator/lowcode/forecast/utils.py` lines 37-44:

  round(np.mean(np.abs(actual - predicted) /
                (np.abs(actual) + np.abs(predicted))) * 100, 2)
-/

def smape (actual predicted : List ℚ) : Option ℚ :=
  (npMean (List.zipWith smapePoint actual predicted)).map (fun m => pyRound2 (m * 100))

/-! ### sklearn metrics used by `_build_metrics_df` -/

/-- Machine epsilon for float64, sklearn's divide-by-zero floor in
`mean_absolute_percentage_error`. -/
def npEps : ℚ := 1 / 2 ^ 52

/-- One term of sklearn's MAPE: `|y_pred - y_true| / max(|y_true|, eps)`. -/
def mapePoint (yt yp : ℚ) : ℚ := |yp - yt| / max |yt| npEps

/-- sklearn's `mean_absolute_percentage_error` (unweighted average). -/
def mean_absolute_percentage_error (y_true y_pred : List ℚ) : ℚ :=
  (List.zipWith mapePoint y_true y_pred).sum /
    ((List.zipWith mapePoint y_true y_pred).length : ℚ)

/-- The WMAPE entry of `_build_metrics_df`
(`ads/operators/forecast/utils.py` lines 257-261):
`weight = np.sum(y_true) / weights_denominator; WMAPE = weight * mape`. -/
def buildMetricsWMAPE (y_true y_pred : List ℚ) (weights_denominator : ℚ) : ℚ :=
  (y_true.sum / weights_denominator) * mean_absolute_percentage_error y_true y_pred

/-! ### Confidence-interval translation at each adapter boundary

ARIMA (`arima.py` line 40):        `model_kwargs["alpha"] = 1 - operator.confidence_interval_width`
Prophet (`prophet.py` line 54):    `model_kwargs["interval_width"] = operator.confidence_interval_width`
AutoMLX (`automlx.py` line 55):    `alpha=1 - (operator.confidence_interval_width / 100)`
-/

def arimaAlphaParam (confidence_interval_width : ℚ) : ℚ :=
  1 - confidence_interval_width

def prophetIntervalWidthParam (confidence_interval_width : ℚ) : ℚ :=
  confidence_interval_width

def automlxAlphaParam (confidence_interval_width : ℚ) : ℚ :=
  1 - confidence_interval_width / 100

/-! ### Interval-bound column labels of the merged output

ARIMA (`arima.py` lines 111-113):
  yhat_upper_percentage = int(100 - model_kwargs["alpha"] * 100 / 2)
  yhat_lower_name = "p" + str(int(100 - yhat_upper_percentage))
  yhat_upper_name = "p" + str(yhat_upper_percentage)

Prophet (`prophet.py` lines 188-190):
  yhat_lower_percentage = (100 - model_kwargs["interval_width"] * 100) // 2
  yhat_upper_name = "p" + str(int(100 - yhat_lower_percentage))
  yhat_lower_name = "p" + str(int(yhat_lower_percentage))
-/

def arimaYhatUpperPercentage (w : ℚ) : ℤ :=
  pyInt (100 - arimaAlphaParam w * 100 / 2)

def arimaYhatLowerName (w : ℚ) : String :=
  "p" ++ toString ((100 : ℤ) - arimaYhatUpperPercentage w)

def arimaYhatUpperName (w : ℚ) : String :=
  "p" ++ toString (arimaYhatUpperPercentage w)

/-- Python float floor division `// 2` is `⌊· / 2⌋`. -/
def prophetYhatLowerPercentage (w : ℚ) : ℚ :=
  ⌊(100 - prophetIntervalWidthParam w * 100) / 2⌋

def prophetYhatUpperName (w : ℚ) : String :=
  "p" ++ toString (pyInt (100 - prophetYhatLowerPercentage w))

def prophetYhatLowerName (w : ℚ) : String :=
  "p" ++ toString (pyInt (prophetYhatLowerPercentage w))

/-! ### Series partitioning (`_build_indexed_datasets`,
`ads/operators/forecast/utils.py` lines 159-215, and
`_merge_category_columns`, lines 124-127) -/

/-- One row of the raw input table: the values of the
`target_category_columns` (in column order), the datetime value, and the
target value (`none` = missing). -/
structure Row where
  cats : List String
  datetime : ℤ
  target : Option ℚ

/-- Join of the stringified category values:
`"__".join([str(x[col]) for col in target_category_columns])`. -/
def mergeCategoryColumns (r : Row) : String :=
  String.intercalate "__" r.cats

/-- First-appearance deduplication: the order in which pandas
`Series.unique()` returns the distinct values. -/
def dedupFirst {α : Type} [DecidableEq α] : List α → List α
  | [] => []
  | x :: xs => x :: (dedupFirst xs).filter (fun y => y ≠ x)

/-- The categorized branch of `_build_indexed_datasets` (no additional data):
computes the joined `__Series__` key per row, takes the unique keys in order
of first appearance, and builds one sub-table per key, stored under the key
`f"{target_column}_{cat}"` in insertion order.  Returns the dictionary (as an
insertion-ordered association list) and `unique_categories`. -/
def buildIndexedDatasets (rows : List Row) (target_column : String) :
    List (String × List Row) × List String :=
  let cats := dedupFirst (rows.map mergeCategoryColumns)
  (cats.map (fun c =>
      (target_column ++ "_" ++ c, rows.filter (fun r => mergeCategoryColumns r = c))),
    cats)

/-- Number of distinct category-column combinations present in the table. -/
def distinctCatCombos (rows : List Row) : ℕ :=
  (dedupFirst (rows.map Row.cats)).length

/-- Specification-side definition for the refinement claim C9: the order of
first appearance of each category key, written as a left-to-right scan that
appends each key not seen before (spec 4.1: "category order of appearance in
the source table determines the order of keys returned").  Compared against
the key order `buildIndexedDatasets` produces. -/
def firstAppearanceOrder {α : Type} [DecidableEq α] (l : List α) : List α :=
  l.foldl (fun acc x => if x ∈ acc then acc else acc ++ [x]) []

/-! ### The per-category merge loop (`arima.py` lines 114-125) -/

/-- One row of a per-series forecast frame. -/
structure ForecastRow where
  date : ℤ
  yhat : ℚ
  yhat_lower : ℚ
  yhat_upper : ℚ

/-- One row of the merged output table. -/
structure OutputRow where
  date : ℤ
  series : String
  forecast_value : ℚ
  upper : ℚ
  lower : ℚ

/-- Dictionary lookup `outputs[f"{col}_{cat}"]`. -/
def lookupOutput (outputs : List (String × List ForecastRow)) (k : String) :
    List ForecastRow :=
  ((outputs.find? (fun kv => kv.1 = k)).map Prod.snd).getD []

/-- The ARIMA merge loop: `for cat in operator.categories:` build the block
of rows for that category and stack the blocks row-wise, in the order of
`operator.categories`. -/
def arimaMergeOutputs (categories : List String) (col : String)
    (outputs : List (String × List ForecastRow)) : List OutputRow :=
  (categories.map (fun cat =>
    (lookupOutput outputs (col ++ "_" ++ cat)).map (fun f =>
      OutputRow.mk f.date cat f.yhat f.yhat_upper f.yhat_lower))).flatten

/-! ### Training-row selection of each adapter (claim C8)

ARIMA (`arima.py` lines 55-63):   `data_i = df_clean[df_clean[target].notna()]`
Prophet (`prophet.py` line 66):   `data_i = df_clean[df_clean[target].notna()]`
AutoMLX (`automlx.py` lines 37-51): computes
`series_values = df[df[target].notna()]` but never uses it; fits on
`y_train` where `y_train, _ = temporal_train_test_split(df, test_size=horizon)`
when extra columns exist, else `y_train = df` (the whole frame).
A per-series frame is modelled by its target column (one entry per row,
`none` = missing) plus whether columns other than the target remain.
-/

def arimaTrainRows (target : List (Option ℚ)) : List (Option ℚ) :=
  target.filter (fun x => x.isSome)

def prophetTrainRows (target : List (Option ℚ)) : List (Option ℚ) :=
  target.filter (fun x => x.isSome)

/-- The NaN-dropped frame AutoMLX computes on lines 37-39 and then never
uses for fitting. -/
def automlxSeriesValues (target : List (Option ℚ)) : List (Option ℚ) :=
  target.filter (fun x => x.isSome)

def automlxTrainRows (target : List (Option ℚ)) (hasAdditionalColumns : Bool)
    (horizon : ℕ) : List (Option ℚ) :=
  if hasAdditionalColumns then target.take (target.length - horizon)
  else target

/-! ### `test_evaluate_metrics` per-column loop
(`ads/operators/forecast/utils.py` lines 289-347)

The function logs the two set differences, then loops over ALL of
`target_columns` (not the intersection): `y_true = np.asarray(data[col])`
sits in a `try` whose bare `except` only logs, so after a missing column
`y_true` keeps its previous binding — and on the first iteration it has no
binding at all, so the following use raises `NameError`.
-/

def missingFromTestSet (target_columns confirm_targ_columns : List String) :
    List String :=
  target_columns.filter (fun c => ¬ c ∈ confirm_targ_columns)

def extraInTestSet (target_columns confirm_targ_columns : List String) :
    List String :=
  confirm_targ_columns.filter (fun c => ¬ c ∈ target_columns)

/-- Column lookup in the (cleaned) test table. -/
def lookupCol (data : List (String × List ℚ)) (c : String) : Option (List ℚ) :=
  (data.find? (fun kv => kv.1 = c)).map Prod.snd

/-- Python's negative-length slice `xs[-n:]`. -/
def lastSlice (xs : List ℚ) (n : ℕ) : List ℚ :=
  xs.drop (xs.length - n)

/-- The metric loop of `test_evaluate_metrics`, recording for every column
of `target_columns` the `(col, y_true, y_pred)` triple actually fed to
`_build_metrics_df`.  The `Option (List ℚ)` state is the current binding of
the Python local `y_true` (`none` = not yet bound).  Using an unbound
`y_true` is the uncaught `NameError`, returned as `Except.error`. -/
def testMetricsLoop (data : List (String × List ℚ)) (outputs : List (List ℚ)) :
    List String → ℕ → Option (List ℚ) →
    Except String (List (String × List ℚ × List ℚ))
  | [], _, _ => Except.ok []
  | col :: rest, idx, yTrueState =>
    let yTrueState' :=
      match lookupCol data col with
      | some v => some v
      | none => yTrueState
    match yTrueState' with
    | none => Except.error "NameError: y_true is not defined"
    | some yt =>
      let yp := lastSlice (outputs.getD idx []) yt.length
      match testMetricsLoop data outputs rest (idx + 1) (some yt) with
      | Except.ok tail => Except.ok ((col, yt, yp) :: tail)
      | Except.error e => Except.error e

/-- The rows of metrics `test_evaluate_metrics` computes (or the exception
it raises), given the train-side `target_columns`, the cleaned test table,
and the per-series forecast outputs. -/
def testEvaluateMetricsRows (target_columns : List String)
    (data : List (String × List ℚ)) (outputs : List (List ℚ)) :
    Except String (List (String × List ℚ × List ℚ)) :=
  testMetricsLoop data outputs target_columns 0 none

/-! ### `select_auto_model`
(`ads/opctl/operator/lowcode/forecast/utils.py` lines 296-299 and
`const.py`) -/

def MAX_COLUMNS_AUTOMLX : ℕ := 15

namespace SupportedModels

def Prophet : String := "prophet"

def Arima : String := "arima"

def NeuralProphet : String := "neuralprophet"

def AutoMLX : String := "automlx"

end SupportedModels

/-- Source: `if columns!=None and len(columns) > MAX_COLUMNS_AUTOMLX:
return SupportedModels.Arima` and `return SupportedModels.AutoMLX`
otherwise. -/
def select_auto_model (columns : Option (List String)) : String :=
  match columns with
  | some cs =>
    if cs.length > MAX_COLUMNS_AUTOMLX then SupportedModels.Arima
    else SupportedModels.AutoMLX
  | none => SupportedModels.AutoMLX

end Forecast

/-!
## Helper lemmas
-/

namespace Forecast

theorem mem_dedupFirst {α : Type} [DecidableEq α] (a : α) :
    ∀ (l : List α), a ∈ dedupFirst l ↔ a ∈ l
  | [] => Iff.rfl
  | x :: xs => by
    rw [dedupFirst]
    by_cases hax : a = x
    · subst hax; simp
    · simp [hax, List.mem_filter, mem_dedupFirst a xs]

theorem nodup_dedupFirst {α : Type} [DecidableEq α] :
    ∀ (l : List α), (dedupFirst l).Nodup
  | [] => List.nodup_nil
  | x :: xs => by
    rw [dedupFirst]
    refine List.nodup_cons.mpr ⟨?_, (nodup_dedupFirst xs).filter _⟩
    simp [List.mem_filter]

theorem dedupFirst_map {α β : Type} [DecidableEq α] [DecidableEq β] (g : α → β) :
    ∀ (l : List α), (∀ a ∈ l, ∀ b ∈ l, g a = g b → a = b) →
      dedupFirst (l.map g) = (dedupFirst l).map g
  | [], _ => rfl
  | x :: xs, hinj => by
    rw [List.map_cons, dedupFirst, dedupFirst,
      dedupFirst_map g xs (fun a ha b hb =>
        hinj a (List.mem_cons_of_mem _ ha) b (List.mem_cons_of_mem _ hb)),
      List.filter_map, List.map_cons]
    congr 1
    apply congrArg
    apply List.filter_congr
    intro y hy
    have hy' : y ∈ xs := (mem_dedupFirst y xs).mp hy
    by_cases h : y = x
    · subst h; simp
    · have hgne : g y ≠ g x := fun hg =>
        h (hinj y (List.mem_cons_of_mem _ hy') x (List.mem_cons_self _ _) hg)
      simp [h, Function.comp, hgne]

theorem length_filter_add_length_filter_not {α : Type} (p : α → Prop)
    [DecidablePred p] (l : List α) :
    (l.filter (fun a => p a)).length + (l.filter (fun a => ¬ p a)).length
      = l.length := by
  rw [← List.countP_eq_length_filter, ← List.countP_eq_length_filter,
    List.length_eq_countP_add_countP (p := fun a => decide (p a)) (l := l)]
  congr 1
  apply List.countP_congr
  intro a _
  simp

theorem sum_filter_lengths {α β : Type} [DecidableEq β] (f : α → β) :
    ∀ (keys : List β) (l : List α), keys.Nodup → (∀ r ∈ l, f r ∈ keys) →
      (keys.map (fun c => (l.filter (fun r => f r = c)).length)).sum = l.length
  | [], l, _, hcov => by
    have hl : l = [] :=
      List.eq_nil_iff_forall_not_mem.mpr (fun a ha => by simpa using hcov a ha)
    simp [hl]
  | c :: ks, l, hnd, hcov => by
    have hcnot : ¬ c ∈ ks := (List.nodup_cons.mp hnd).1
    have hnd' : ks.Nodup := (List.nodup_cons.mp hnd).2
    rw [List.map_cons, List.sum_cons]
    have hterm : ks.map (fun c' => (l.filter (fun r => f r = c')).length)
        = ks.map (fun c' =>
            ((l.filter (fun r => ¬ f r = c)).filter (fun r => f r = c')).length) := by
      apply List.map_congr_left
      intro c' hc'
      rw [List.filter_filter]
      congr 1
      apply List.filter_congr
      intro r _
      by_cases h : f r = c'
      · have hccne : ¬ c' = c := fun hcc => hcnot (hcc ▸ hc')
        simp [h, hccne]
      · simp [h]
    rw [hterm, sum_filter_lengths f ks (l.filter (fun r => ¬ f r = c)) hnd' ?_]
    · exact length_filter_add_length_filter_not (fun r => f r = c) l
    · intro r hr
      have hrl : r ∈ l := List.mem_of_mem_filter hr
      have hrc : ¬ f r = c := by simpa using List.of_mem_filter hr
      have hm := hcov r hrl
      simp only [List.mem_cons] at hm
      rcases hm with h | h
      · exact absurd h hrc
      · exact h

theorem firstAppearanceOrder_eq_dedupFirst {α : Type} [DecidableEq α]
    (l : List α) : firstAppearanceOrder l = dedupFirst l := by
  have key : ∀ (l : List α) (acc : List α),
      l.foldl (fun acc x => if x ∈ acc then acc else acc ++ [x]) acc
        = acc ++ (dedupFirst l).filter (fun y => ¬ y ∈ acc) := by
    intro l
    induction l with
    | nil => intro acc; simp [dedupFirst]
    | cons x xs ih =>
      intro acc
      rw [List.foldl_cons, dedupFirst]
      by_cases hx : x ∈ acc
      · rw [if_pos hx, ih, List.filter_cons_of_neg (by simp [hx])]
        congr 1
        rw [List.filter_filter]
        apply List.filter_congr
        intro y hy
        by_cases hyx : y = x
        · subst hyx; simp [hx]
        · simp [hyx]
      · rw [if_neg hx, ih,
          List.filter_cons_of_pos (by simp [hx]), ← List.append_cons]
        congr 1
        rw [List.filter_filter]
        congr 1
        apply List.filter_congr
        intro y hy
        by_cases hyx : y = x
        · subst hyx; simp
        · simp [hyx, List.mem_append]
  rw [firstAppearanceOrder, key l []]
  simp

theorem smapePoint_bounds (a p : ℚ) (h : a ≠ 0 ∨ p ≠ 0) :
    ∃ v, smapePoint a p = some v ∧ 0 ≤ v ∧ v ≤ 1 := by
  have hd : 0 < |a| + |p| := by
    rcases h with h | h
    · have := abs_pos.mpr h
      have := abs_nonneg p
      linarith
    · have := abs_pos.mpr h
      have := abs_nonneg a
      linarith
  refine ⟨|a - p| / (|a| + |p|), ?_, ?_, ?_⟩
  · rw [smapePoint, if_neg (ne_of_gt hd)]
  · positivity
  · rw [div_le_one hd]
    exact abs_sub a p

theorem optSum_bounds : ∀ (xs : List (Option ℚ)),
    (∀ x ∈ xs, ∃ v, x = some v ∧ 0 ≤ v ∧ v ≤ 1) →
    ∃ s, optSum xs = some s ∧ 0 ≤ s ∧ s ≤ (xs.length : ℚ)
  | [], _ => ⟨0, rfl, le_refl 0, by simp⟩
  | x :: xs, h => by
    obtain ⟨v, hx, hv0, hv1⟩ := h x (List.mem_cons_self x xs)
    obtain ⟨s, hs, hs0, hs1⟩ :=
      optSum_bounds xs (fun y hy => h y (List.mem_cons_of_mem _ hy))
    refine ⟨v + s, ?_, by positivity, ?_⟩
    · rw [optSum, hx, hs, optAdd]
    · push_cast [List.length_cons]
      linarith

theorem zipWith_eq_map_zip {α β γ : Type} (f : α → β → γ) :
    ∀ (a : List α) (b : List β),
      List.zipWith f a b = (a.zip b).map (fun x => f x.1 x.2)
  | [], _ => by simp
  | _ :: _, [] => by simp
  | x :: xs, y :: ys => by
    simp [List.zip_cons_cons, zipWith_eq_map_zip f xs ys]

theorem roundHalfEven_bounds (x : ℚ) :
    ⌊x⌋ ≤ roundHalfEven x ∧ roundHalfEven x ≤ ⌈x⌉ := by
  have hfc : (⌊x⌋ : ℤ) ≤ ⌈x⌉ := Int.floor_le_ceil x
  have hkey : ¬ (x - ⌊x⌋ < 1/2) → ⌊x⌋ + 1 ≤ ⌈x⌉ := by
    intro h
    have hlt : (⌊x⌋ : ℚ) < x := by
      push_neg at h
      linarith
    exact Int.lt_ceil.mpr hlt
  rw [roundHalfEven]
  split_ifs with h1 h2 h3
  · exact ⟨le_refl _, hfc⟩
  · exact ⟨by omega, hkey h1⟩
  · exact ⟨le_refl _, hfc⟩
  · exact ⟨by omega, hkey h1⟩

theorem pyRound2_bounds (x : ℚ) (h0 : 0 ≤ x) (h1 : x ≤ 100) :
    0 ≤ pyRound2 x ∧ pyRound2 x ≤ 100 := by
  obtain ⟨hlo, hhi⟩ := roundHalfEven_bounds (x * 100)
  have hfl : (0 : ℤ) ≤ ⌊x * 100⌋ := Int.floor_nonneg.mpr (by positivity)
  have hcl : ⌈x * 100⌉ ≤ (10000 : ℤ) := Int.ceil_le.mpr (by push_cast; linarith)
  constructor
  · rw [pyRound2]
    have : (0 : ℚ) ≤ (roundHalfEven (x * 100) : ℚ) := by
      exact_mod_cast le_trans hfl hlo
    positivity
  · rw [pyRound2, div_le_iff₀ (by norm_num : (0:ℚ) < 100)]
    have : (roundHalfEven (x * 100) : ℚ) ≤ 10000 := by
      exact_mod_cast le_trans hhi hcl
    linarith

theorem pyInt_intCast (n : ℤ) : pyInt ((n : ℤ) : ℚ) = n := by
  rw [pyInt]
  split_ifs <;> simp

end Forecast

/-!
## Claim theorems
-/

namespace Forecast

/-- C1: the claim states that all three adapters encode the configured
confidence width `w` consistently, ARIMA and AutoMLX as `alpha = 1 - w` and
Prophet as `interval_width = w`.  Evaluated at `w = 9/10`: ARIMA and Prophet
follow the claim, but the AutoMLX adapter passes `alpha = 1 - w/100 =
991/1000` (an interval of probability mass `9/1000`), not `1 - w = 1/10` —
the code divides the width by 100 as if it were a percentage. -/
theorem automlx_alpha_divergence :
    arimaAlphaParam (9/10) = 1 - 9/10 ∧
    prophetIntervalWidthParam (9/10) = 9/10 ∧
    automlxAlphaParam (9/10) = 991/1000 ∧
    automlxAlphaParam (9/10) ≠ 1 - 9/10 := by
  refine ⟨rfl, rfl, ?_, ?_⟩ <;> norm_num [automlxAlphaParam]

/-- C2: the claim states that a point with `actual[i] = 0` and
`predicted[i] = 0` contributes `0` to the sMAPE mean and the result is a
number, never NaN.  The code has no guard: on `actual = [0, 1]`,
`predicted = [0, 1]` the first point is `0/0 = NaN`, the NaN propagates
through `np.mean`, and `smape` returns NaN (`none`). -/
theorem smape_zero_zero_nan : smape [0, 1] [0, 1] = none := by
  norm_num [smape, npMean, optSum, optAdd, smapePoint]

/-- C3: the claim states that when a training category is absent from the
test data, `test_evaluate_metrics` logs the set differences and computes
metrics only over the intersection, returning normally.  The set difference
is indeed computed and logged, but the metric loop iterates ALL of
`target_columns`: with train categories `Sales_A, Sales_B` and a test table
containing only `Sales_B`, the first iteration leaves `y_true` unbound and
the function raises `NameError`; with the order reversed, a metrics column
IS produced for the missing `Sales_A` — reusing `Sales_B`'s actuals. -/
theorem test_evaluate_metrics_loop_divergence :
    missingFromTestSet ["Sales_A", "Sales_B"] ["Sales_B"] = ["Sales_A"] ∧
    testEvaluateMetricsRows ["Sales_A", "Sales_B"]
        [("Sales_B", [1, 2])] [[1, 2], [3, 4]]
      = Except.error "NameError: y_true is not defined" ∧
    testEvaluateMetricsRows ["Sales_B", "Sales_A"]
        [("Sales_B", [1, 2])] [[1, 2], [3, 4]]
      = Except.ok [("Sales_B", [1, 2], [1, 2]), ("Sales_A", [1, 2], [3, 4])] := by
  refine ⟨by decide, ?_, ?_⟩ <;>
    simp [testEvaluateMetricsRows, testMetricsLoop, lookupCol, lastSlice]

/-- C4 (amended): partitioning with non-empty category columns always
returns one frame per distinct joined key, with the per-frame row counts
summing to the total row count N (both unconditional); the number of frames
additionally equals the number K of distinct category-column combinations
provided the `__`-join is injective on the combinations present (which
holds e.g. when no category value contains the delimiter). -/
theorem partition_counts (rows : List Row) (tc : String) :
    ((buildIndexedDatasets rows tc).1.map (fun kv => kv.2.length)).sum
      = rows.length ∧
    (buildIndexedDatasets rows tc).1.length
      = (dedupFirst (rows.map mergeCategoryColumns)).length ∧
    ((∀ a ∈ rows.map Row.cats, ∀ b ∈ rows.map Row.cats,
        String.intercalate "__" a = String.intercalate "__" b → a = b) →
      (buildIndexedDatasets rows tc).1.length = distinctCatCombos rows) := by
  refine ⟨?_, ?_, ?_⟩
  · rw [buildIndexedDatasets]
    simp only [List.map_map]
    have hcov : ∀ r ∈ rows,
        mergeCategoryColumns r ∈ dedupFirst (rows.map mergeCategoryColumns) :=
      fun r hr => (mem_dedupFirst _ _).mpr (List.mem_map_of_mem _ hr)
    have := sum_filter_lengths mergeCategoryColumns
      (dedupFirst (rows.map mergeCategoryColumns)) rows
      (nodup_dedupFirst _) hcov
    convert this using 2
  · rw [buildIndexedDatasets]
    simp only [List.length_map]
  · intro hinj
    rw [buildIndexedDatasets]
    simp only [List.length_map]
    have hm : rows.map mergeCategoryColumns
        = (rows.map Row.cats).map (String.intercalate "__") := by
      rw [List.map_map]; rfl
    rw [distinctCatCombos, hm, dedupFirst_map _ _ hinj, List.length_map]

/-- C4 (counterexample to the claim as stated): a table with N = 2 rows and
K = 2 distinct category combinations `("a__b", "c")` and `("a", "b__c")`
produces a single per-series frame, because both combinations join to the
same `__Series__` key `"a__b__c"`. -/
theorem partition_counts_counterexample :
    distinctCatCombos
      [Row.mk ["a__b", "c"] 0 (some 1), Row.mk ["a", "b__c"] 1 (some 2)] = 2 ∧
    ((buildIndexedDatasets
      [Row.mk ["a__b", "c"] 0 (some 1), Row.mk ["a", "b__c"] 1 (some 2)]
      "Sales").1).length = 1 := by
  constructor <;> decide

/-- C4 witness: a concrete 3-row table with collision-free keys `a`, `b`;
the unconditional conjuncts of `partition_counts` apply directly, and the
injectivity hypothesis of the third conjunct is discharged by computation. -/
theorem partition_counts_witness :
    (∀ a ∈ ([Row.mk ["a"] 0 (some 1), Row.mk ["b"] 1 (some 2),
        Row.mk ["a"] 2 (some 3)] : List Row).map Row.cats,
      ∀ b ∈ ([Row.mk ["a"] 0 (some 1), Row.mk ["b"] 1 (some 2),
        Row.mk ["a"] 2 (some 3)] : List Row).map Row.cats,
      String.intercalate "__" a = String.intercalate "__" b → a = b) ∧
    (((buildIndexedDatasets [Row.mk ["a"] 0 (some 1), Row.mk ["b"] 1 (some 2),
        Row.mk ["a"] 2 (some 3)] "Sales").1.map (fun kv => kv.2.length)).sum
      = ([Row.mk ["a"] 0 (some 1), Row.mk ["b"] 1 (some 2),
        Row.mk ["a"] 2 (some 3)] : List Row).length ∧
     (buildIndexedDatasets [Row.mk ["a"] 0 (some 1), Row.mk ["b"] 1 (some 2),
        Row.mk ["a"] 2 (some 3)] "Sales").1.length
      = (dedupFirst (([Row.mk ["a"] 0 (some 1), Row.mk ["b"] 1 (some 2),
        Row.mk ["a"] 2 (some 3)] : List Row).map mergeCategoryColumns)).length ∧
     (buildIndexedDatasets [Row.mk ["a"] 0 (some 1), Row.mk ["b"] 1 (some 2),
        Row.mk ["a"] 2 (some 3)] "Sales").1.length
      = distinctCatCombos [Row.mk ["a"] 0 (some 1), Row.mk ["b"] 1 (some 2),
        Row.mk ["a"] 2 (some 3)]) :=
  ⟨by decide,
    (partition_counts [Row.mk ["a"] 0 (some 1), Row.mk ["b"] 1 (some 2),
      Row.mk ["a"] 2 (some 3)] "Sales").1,
    (partition_counts [Row.mk ["a"] 0 (some 1), Row.mk ["b"] 1 (some 2),
      Row.mk ["a"] 2 (some 3)] "Sales").2.1,
    (partition_counts [Row.mk ["a"] 0 (some 1), Row.mk ["b"] 1 (some 2),
      Row.mk ["a"] 2 (some 3)] "Sales").2.2 (by decide)⟩

/-- C5 (amended): for every width `0 < w < 1` such that `(100 - 100w)/2` is
an integer `k` (e.g. `w = 0.80`, `k = 10`), both the ARIMA and the Prophet
merge steps label the interval-bound columns `p{k}` (lower) and `p{100-k}`
(upper).  When `(100 - 100w)/2` is not an integer the two adapters truncate
in opposite directions and the claimed common formula fails (see the
counterexample). -/
theorem bound_labels (w : ℚ) (k : ℤ) (h0 : 0 < w) (h1 : w < 1)
    (hk : (100 - 100 * w) / 2 = (k : ℚ)) :
    arimaYhatLowerName w = "p" ++ toString k ∧
    arimaYhatUpperName w = "p" ++ toString (100 - k) ∧
    prophetYhatLowerName w = "p" ++ toString k ∧
    prophetYhatUpperName w = "p" ++ toString (100 - k) := by
  have ha : (100 : ℚ) - arimaAlphaParam w * 100 / 2 = ((100 - k : ℤ) : ℚ) := by
    rw [arimaAlphaParam]
    push_cast
    linarith
  have harima : arimaYhatUpperPercentage w = 100 - k := by
    rw [arimaYhatUpperPercentage, ha, pyInt_intCast]
  have hb : (100 - prophetIntervalWidthParam w * 100) / 2 = ((k : ℤ) : ℚ) := by
    rw [prophetIntervalWidthParam]
    push_cast
    linarith
  have hprophet : prophetYhatLowerPercentage w = ((k : ℤ) : ℚ) := by
    rw [prophetYhatLowerPercentage, hb, Int.floor_intCast]
  refine ⟨?_, ?_, ?_, ?_⟩
  · rw [arimaYhatLowerName, harima,
      show (100 : ℤ) - (100 - k) = k from by ring]
  · rw [arimaYhatUpperName, harima]
  · rw [prophetYhatLowerName, hprophet, pyInt_intCast]
  · rw [prophetYhatUpperName, hprophet,
      show (100 : ℚ) - ((k : ℤ) : ℚ) = ((100 - k : ℤ) : ℚ) from by push_cast; ring,
      pyInt_intCast]

/-- C5 (counterexample to the claim as stated): at width `w = 0.85` the
single general formula cannot hold — ARIMA labels the bounds `p8`/`p92`
while Prophet labels them `p7`/`p93` (and `(100 - 100w)/2 = 7.5` is not an
integer, so neither equals the claimed `p{(100-100w)/2}`). -/
theorem bound_labels_counterexample :
    arimaYhatLowerName (17/20) = "p8" ∧ arimaYhatUpperName (17/20) = "p92" ∧
    prophetYhatLowerName (17/20) = "p7" ∧ prophetYhatUpperName (17/20) = "p93" ∧
    arimaYhatLowerName (17/20) ≠ prophetYhatLowerName (17/20) := by
  have ha : arimaYhatUpperPercentage (17/20) = 92 := by
    norm_num [arimaYhatUpperPercentage, arimaAlphaParam, pyInt]
  have hp : prophetYhatLowerPercentage (17/20) = 7 := by
    norm_num [prophetYhatLowerPercentage, prophetIntervalWidthParam]
  have hp1 : pyInt (prophetYhatLowerPercentage (17/20)) = 7 := by
    rw [hp]
    norm_num [pyInt]
  have hp2 : pyInt (100 - prophetYhatLowerPercentage (17/20)) = 93 := by
    rw [hp]
    norm_num [pyInt]
  have e1 : arimaYhatLowerName (17/20) = "p8" := by
    rw [arimaYhatLowerName, ha]
    decide
  have e2 : arimaYhatUpperName (17/20) = "p92" := by
    rw [arimaYhatUpperName, ha]
    decide
  have e3 : prophetYhatLowerName (17/20) = "p7" := by
    rw [prophetYhatLowerName, hp1]
    decide
  have e4 : prophetYhatUpperName (17/20) = "p93" := by
    rw [prophetYhatUpperName, hp2]
    decide
  exact ⟨e1, e2, e3, e4, by rw [e1, e3]; decide⟩

/-- C5 witness: at `w = 0.80` and `k = 10` the hypotheses hold and both
pipelines label the bounds `p10` and `p90`. -/
theorem bound_labels_witness :
    ((0 : ℚ) < 4/5 ∧ (4/5 : ℚ) < 1 ∧
      (100 - 100 * (4/5 : ℚ)) / 2 = ((10 : ℤ) : ℚ)) ∧
    (arimaYhatLowerName (4/5) = "p" ++ toString (10 : ℤ) ∧
     arimaYhatUpperName (4/5) = "p" ++ toString (100 - (10 : ℤ)) ∧
     prophetYhatLowerName (4/5) = "p" ++ toString (10 : ℤ) ∧
     prophetYhatUpperName (4/5) = "p" ++ toString (100 - (10 : ℤ))) :=
  ⟨⟨by norm_num, by norm_num, by norm_num⟩,
    bound_labels (4/5) 10 (by norm_num) (by norm_num) (by norm_num)⟩

/-- C6: for fixed `y_true`, `y_pred` and nonzero denominators `d1`, `d2`,
the WMAPE of `_build_metrics_df` satisfies
`WMAPE(d1) * d1 = WMAPE(d2) * d2` — it scales inversely with the
caller-supplied `weights_denominator`. -/
theorem wmape_inverse_scaling (y_true y_pred : List ℚ) (d1 d2 : ℚ)
    (h1 : d1 ≠ 0) (h2 : d2 ≠ 0) :
    buildMetricsWMAPE y_true y_pred d1 * d1
      = buildMetricsWMAPE y_true y_pred d2 * d2 := by
  unfold buildMetricsWMAPE
  field_simp

/-- C6 witness: concrete sequences and denominators 3 and 5. -/
theorem wmape_inverse_scaling_witness :
    (3 : ℚ) ≠ 0 ∧ (5 : ℚ) ≠ 0 ∧
    buildMetricsWMAPE [1, 2] [2, 1] 3 * 3 = buildMetricsWMAPE [1, 2] [2, 1] 5 * 5 :=
  ⟨by norm_num, by norm_num,
    wmape_inverse_scaling [1, 2] [2, 1] 3 5 (by norm_num) (by norm_num)⟩

/-- C7 (amended): for equal-length non-empty sequences with no index at
which both entries are zero, `smape` returns a number `q` with
`0 ≤ q ≤ 100`.  (Without the guard hypothesis the result can be NaN, see
the counterexample.) -/
theorem smape_bounded (actual predicted : List ℚ)
    (hlen : actual.length = predicted.length) (hne : actual ≠ [])
    (hguard : ∀ x ∈ actual.zip predicted, x.1 ≠ 0 ∨ x.2 ≠ 0) :
    ∃ q, smape actual predicted = some q ∧ 0 ≤ q ∧ q ≤ 100 := by
  have hmem : ∀ y ∈ List.zipWith smapePoint actual predicted,
      ∃ v, y = some v ∧ 0 ≤ v ∧ v ≤ 1 := by
    intro y hy
    rw [zipWith_eq_map_zip] at hy
    obtain ⟨x, hx, rfl⟩ := List.mem_map.mp hy
    exact smapePoint_bounds x.1 x.2 (hguard x hx)
  obtain ⟨s, hs, hs0, hs1⟩ := optSum_bounds _ hmem
  have hlen' : (List.zipWith smapePoint actual predicted).length
      = actual.length := by
    rw [List.length_zipWith, hlen, min_self]
  have hpos : actual.length ≠ 0 := fun h => hne (List.length_eq_zero.mp h)
  have hnne : (List.zipWith smapePoint actual predicted).length ≠ 0 := by
    rw [hlen']
    exact hpos
  have hmean : npMean (List.zipWith smapePoint actual predicted)
      = some (s / ((List.zipWith smapePoint actual predicted).length : ℚ)) := by
    rw [npMean, if_neg hnne, hs, Option.map_some']
  have hnpos : (0 : ℚ) < ((List.zipWith smapePoint actual predicted).length : ℚ) := by
    exact_mod_cast Nat.pos_of_ne_zero hnne
  have hm0 : 0 ≤ s / ((List.zipWith smapePoint actual predicted).length : ℚ) :=
    div_nonneg hs0 (le_of_lt hnpos)
  have hm1 : s / ((List.zipWith smapePoint actual predicted).length : ℚ) ≤ 1 :=
    (div_le_one hnpos).mpr hs1
  obtain ⟨hq0, hq1⟩ := pyRound2_bounds
    (s / ((List.zipWith smapePoint actual predicted).length : ℚ) * 100)
    (by linarith) (by linarith)
  refine ⟨_, ?_, hq0, hq1⟩
  rw [smape, hmean, Option.map_some']

/-- C7 (counterexample to the claim as stated): on `actual = [0]`,
`predicted = [0]` — finite, equal-length, non-empty — `smape` returns NaN,
so no number in `[0, 100]` is returned. -/
theorem smape_bounded_counterexample :
    ¬ ∃ q, smape [0] [0] = some q ∧ 0 ≤ q ∧ q ≤ 100 := by
  norm_num [smape, npMean, optSum, optAdd, smapePoint]
  intro x hx
  exact absurd hx (by simp)

/-- C7 witness: the guarded bound applied to `[1, 2]` vs `[2, 4]`. -/
theorem smape_bounded_witness :
    (([(1 : ℚ), 2].length = [(2 : ℚ), 4].length) ∧ ([(1 : ℚ), 2] ≠ []) ∧
      (∀ x ∈ [(1 : ℚ), 2].zip [(2 : ℚ), 4], x.1 ≠ 0 ∨ x.2 ≠ 0)) ∧
    ∃ q, smape [1, 2] [2, 4] = some q ∧ 0 ≤ q ∧ q ≤ 100 :=
  ⟨⟨rfl, by simp, by norm_num⟩,
    smape_bounded [1, 2] [2, 4] rfl (by simp) (by norm_num)⟩

/-- C8: the claim states that all three adapters fit on exactly the rows
with a non-missing target.  ARIMA and Prophet do (`notna()` filter), and
AutoMLX even computes that same filtered frame (`series_values`) — but then
never uses it: on a single-column frame `[some 1, some 2, none]` with
horizon 1 its training data is the whole frame, missing-target row
included. -/
theorem automlx_trains_on_missing_target :
    arimaTrainRows [some 1, some 2, none] = [some 1, some 2] ∧
    prophetTrainRows [some 1, some 2, none] = [some 1, some 2] ∧
    automlxSeriesValues [some 1, some 2, none] = [some 1, some 2] ∧
    automlxTrainRows [some 1, some 2, none] false 1 = [some 1, some 2, none] ∧
    (none : Option ℚ) ∈ automlxTrainRows [some 1, some 2, none] false 1 := by
  refine ⟨rfl, rfl, rfl, rfl, ?_⟩
  simp [automlxTrainRows]

/-- C9: the category keys returned by `_build_indexed_datasets` are in
order of first appearance of each joined category key in the source table
(refinement against the scan-based specification definition); the keys of
the per-series dictionary follow that same order; and the per-category
merge loop emits its `Series` labels grouped in exactly that order. -/
theorem partition_merge_order (rows : List Row) (tc : String)
    (outputs : List (String × List ForecastRow)) :
    (buildIndexedDatasets rows tc).2
      = firstAppearanceOrder (rows.map mergeCategoryColumns) ∧
    (buildIndexedDatasets rows tc).1.map Prod.fst
      = ((buildIndexedDatasets rows tc).2.map (fun c => tc ++ "_" ++ c)) ∧
    (arimaMergeOutputs (buildIndexedDatasets rows tc).2 tc outputs).map
        OutputRow.series
      = ((buildIndexedDatasets rows tc).2.map (fun cat =>
          List.replicate (lookupOutput outputs (tc ++ "_" ++ cat)).length
            cat)).flatten := by
  refine ⟨?_, ?_, ?_⟩
  · rw [buildIndexedDatasets, firstAppearanceOrder_eq_dedupFirst]
  · rw [buildIndexedDatasets]
    simp only [List.map_map]
    rfl
  · rw [arimaMergeOutputs, List.map_flatten]
    congr 1
    rw [List.map_map]
    apply List.map_congr_left
    intro cat _
    simp [Function.comp_def, List.map_map]

/-- C10: `select_auto_model` returns the ARIMA identifier exactly when
`columns` is not `None` and has more than `MAX_COLUMNS_AUTOMLX = 15`
entries; in every other case — including `columns = None` — it returns the
AutoMLX identifier. -/
theorem select_auto_model_spec (columns : Option (List String)) :
    (select_auto_model columns = SupportedModels.Arima ↔
      ∃ cs, columns = some cs ∧ MAX_COLUMNS_AUTOMLX < cs.length) ∧
    (select_auto_model columns = SupportedModels.Arima ∨
      select_auto_model columns = SupportedModels.AutoMLX) := by
  have hne : SupportedModels.AutoMLX ≠ SupportedModels.Arima := by decide
  cases columns with
  | none =>
    refine ⟨⟨fun h => absurd h hne, ?_⟩, Or.inr rfl⟩
    rintro ⟨cs, hcs, -⟩
    exact Option.noConfusion hcs
  | some cs =>
    by_cases h : MAX_COLUMNS_AUTOMLX < cs.length
    · refine ⟨⟨fun _ => ⟨cs, rfl, h⟩, fun _ => ?_⟩, Or.inl ?_⟩ <;>
        simp [select_auto_model, h]
    · refine ⟨⟨fun hsel => ?_, ?_⟩, Or.inr ?_⟩
      · exact absurd hsel (by simp [select_auto_model, h]; exact hne)
      · rintro ⟨cs', hcs', hlen⟩
        cases hcs'
        exact absurd hlen h
      · simp [select_auto_model, h]

end Forecast
